import Mathlib

/-
Verification of the colonsh command-dispatch helper against its
natural-language specification.  The Go source functions (main.go,
config.go) are shallowly embedded as Lean definitions over `String` and
`List Char`; Go's byte-wise operations are modelled char-wise, which agrees
with the source on the ASCII data the program manipulates.  All definitions
come first, followed by the theorems.
-/

namespace Colonsh

/-! ## Definitions -/

/-! ### Go standard-library string helpers -/

/-- Model of Go `strings.ReplaceAll` on char lists, with explicit fuel so
that the recursion is structural; each step consumes at least one character,
so fuel equal to the input length suffices.  Go's behaviour for an empty
pattern (insertion between characters) is not modelled: every pattern used
by the program is non-empty, and with an empty pattern this definition is
the identity. -/
def replaceFuel (pat rep : List Char) : Nat → List Char → List Char
  | _, [] => []
  | 0, l => l
  | fuel + 1, c :: t =>
    if pat.isPrefixOf (c :: t) && !pat.isEmpty then
      rep ++ replaceFuel pat rep fuel (t.drop (pat.length - 1))
    else
      c :: replaceFuel pat rep fuel t

/-- Go `strings.ReplaceAll(s, pat, rep)` (for non-empty `pat`). -/
def goReplaceAll (s pat rep : String) : String :=
  (replaceFuel pat.data rep.data s.data.length s.data).asString

/-- Helper for Go `strings.Contains`: does `pat` occur inside the haystack? -/
def containsL (pat : List Char) : List Char → Bool
  | [] => pat.isEmpty
  | c :: t => pat.isPrefixOf (c :: t) || containsL pat t

/-- Go `strings.Contains(s, sub)`. -/
def containsStr (s sub : String) : Bool := containsL sub.data s.data

/-- Characters trimmed by Go `strings.TrimSpace` (ASCII part of
`unicode.IsSpace`; the program only ever trims git's plain-ASCII output). -/
def isGoSpace (c : Char) : Bool :=
  c == ' ' || c == '\t' || c == '\n' || c == '\x0b' || c == '\x0c' || c == '\r'

/-- Go `strings.TrimSpace` on char lists. -/
def goTrimSpace (l : List Char) : List Char :=
  ((l.dropWhile isGoSpace).reverse.dropWhile isGoSpace).reverse

/-- Go `strings.TrimSuffix(l, suf)`. -/
def goTrimSuffix (l suf : List Char) : List Char :=
  if suf.isSuffixOf l then l.take (l.length - suf.length) else l

/-- Go `strings.TrimPrefix(l, pre)`: drop `pre` from the front when present. -/
def goTrimLeading (l pre : List Char) : List Char :=
  if pre.isPrefixOf l then l.drop pre.length else l

/-- Go `strings.Replace(l, old, new, 1)` for a single-character pattern:
replace the first occurrence of `oldc` by `newc`. -/
def goReplaceFirstChar (oldc newc : Char) : List Char → List Char
  | [] => []
  | c :: t => if c == oldc then newc :: t else c :: goReplaceFirstChar oldc newc t

/-- Go loops of the shape `for _, a := range l { if skip(a) { continue };
emit(render(a)) }`, used throughout `printHelp` and `cmdInit`. -/
def emitKept {α β : Type} (skip : α → Bool) (render : α → β) : List α → List β
  | [] => []
  | a :: t => if skip a then emitKept skip render t else render a :: emitKept skip render t

/-- Maximum of a list of naturals (`0` when empty), the declarative side of
the `printHelp` width fold. -/
def listMax (l : List Nat) : Nat := l.foldr max 0

/-- Go `fmt.Printf("%-*s", w, s)`: left-justify `s` in a field of width `w`
by appending spaces (never truncating). -/
def goPad (w : Nat) (s : String) : String :=
  s ++ (List.replicate (w - s.length) ' ').asString

/-- Go `filepath.Base` for slash-separated paths: empty path gives `"."`,
a path of only separators gives `"/"`, otherwise the last path element with
trailing slashes removed. -/
def filepathBase (p : String) : String :=
  if p = "" then "."
  else
    let r := p.data.reverse.dropWhile (fun c => c == '/')
    if r.isEmpty then "/"
    else ((r.takeWhile (fun c => c != '/')).reverse).asString

/-! ### Data model (config.go) -/

/-- Custom command alias from the JSON config. -/
structure Alias where
  name : String
  cmd : String
deriving DecidableEq

/-- Root directory scanned for project subdirectories. -/
structure ProjectDir where
  path : String
  exclude : List String
deriving DecidableEq

/-- A single action available within a `GitRepo`. -/
structure RepoAction where
  name : String
  cmd : String
  dir : String
deriving DecidableEq

/-- Per-repository settings, looked up by slug. -/
structure GitRepo where
  slug : String
  name : String
  openCmd : String
  actions : List RepoAction
deriving DecidableEq

/-- Top-level configuration document. -/
structure Config where
  aliases : List Alias
  projectDirs : List ProjectDir
  gitRepos : List GitRepo
  openCmd : String
deriving DecidableEq

/-- Built-in alias table entry (main.go `BuiltinAlias`). -/
structure BuiltinAlias where
  name : String
  desc : String
  template : String
deriving DecidableEq

/-- The placeholder token `{{BIN}}` used in builtin templates (written with
hex escapes for the brace characters). -/
def binPlaceholder : String := "\x7b\x7bBIN\x7d\x7d"

/-- The fixed builtin-alias table (main.go `builtinAliases`), in declaration
order.  `{{BIN}}` in templates is written via `binPlaceholder`'s escapes. -/
def builtinAliases : List BuiltinAlias := [
  ⟨"help", "Show this help menu", "\x7b\x7bBIN\x7d\x7d"⟩,
  ⟨"init", "Emit shell integration code (stdout)", ""⟩,
  ⟨"setup", "Modify profile to auto-load colonsh", ""⟩,
  ⟨"config", "Open colonsh config file", "\x7b\x7bBIN\x7d\x7d config"⟩,
  ⟨"pd", "Select a project directory", "cd \"$(\x7b\x7bBIN\x7d\x7d pd)\""⟩,
  ⟨"cd", "Select subdirectory in CWD", "cd \"$(\x7b\x7bBIN\x7d\x7d cd)\""⟩,
  ⟨"po", "Open project in IDE", "\x7b\x7bBIN\x7d\x7d po"⟩,
  ⟨"pa", "Run actions for project", "\x7b\x7bBIN\x7d\x7d pa"⟩,
  ⟨"gb", "Select a git branch", "\x7b\x7bBIN\x7d\x7d gb"⟩,
  ⟨"gnb", "Create a new branch", "\x7b\x7bBIN\x7d\x7d gnb"⟩,
  ⟨"gdb", "Delete a branch", "\x7b\x7bBIN\x7d\x7d gdb"⟩,
  ⟨"gc", "git commit -m <msg>", "\x7b\x7bBIN\x7d\x7d gc"⟩,
  ⟨"gca", "git commit --amend", "\x7b\x7bBIN\x7d\x7d gca"⟩,
  ⟨"gcam", "git commit --amend -m <msg>", "\x7b\x7bBIN\x7d\x7d gcam"⟩,
  ⟨"prs", "Open Pull Requests URL", "\x7b\x7bBIN\x7d\x7d prs"⟩,
  ⟨"main", "Switch to main branch", "git checkout main"⟩,
  ⟨"master", "Switch to master branch", "git checkout master"⟩,
  ⟨"gs", "git status", "git status"⟩,
  ⟨"ll", "git pull", "git pull"⟩,
  ⟨"gaa", "git add .", "git add ."⟩,
  ⟨"gp", "git push", "git push"⟩,
  ⟨"gpf", "git push --force", "git push --force"⟩,
  ⟨"gl", "git log --oneline --graph", "git log --oneline --graph --decorate"⟩]

/-! ### POSIX single-quote escaping (main.go `shellQuoteSingle`) -/

/-- Source `shellQuoteSingle`: `strings.ReplaceAll(s, "'", "'\''")`. -/
def shellQuoteSingle (s : String) : String := goReplaceAll s "'" "'\\''"

/-- Character-wise description of `shellQuoteSingle`: each single quote is
replaced by close-quote, escaped quote, reopen-quote. -/
def quoteChars : List Char → List Char
  | [] => []
  | c :: t =>
    if c = '\'' then '\'' :: '\\' :: '\'' :: '\'' :: quoteChars t
    else c :: quoteChars t

/-- POSIX shell word unquoting.  The flag records whether we are inside a
single-quoted region (where every character is literal until the closing
quote); outside quotes a backslash escapes the next character.  Returns
`none` on an unterminated quote or a trailing backslash. -/
def shUnq : Bool → List Char → Option (List Char)
  | false, [] => some []
  | true, [] => none
  | false, c :: cs =>
    if c = '\'' then shUnq true cs
    else if c = '\\' then
      match cs with
      | [] => none
      | d :: ds => (shUnq false ds).map (fun r => d :: r)
    else (shUnq false cs).map (fun r => c :: r)
  | true, c :: cs =>
    if c = '\'' then shUnq false cs
    else (shUnq true cs).map (fun r => c :: r)

/-- The unquote function of the round-trip law: wrap the rendered command in
single quotes (as `cmdInit` does inside `alias :name='...'`) and let the
shell unquote the resulting word. -/
def shellUnquoteWrapped (w : String) : Option String :=
  (shUnq false ('\'' :: w.data ++ ['\''])).map List.asString

/-! ### Slug resolution (main.go `gitRepoSlug`, `findCurrentRepo`) -/

/-- The part after the first `'/'`, i.e. `strings.SplitN(s, "/", 2)[1]`;
`none` when the string has no slash (fewer than two parts). -/
def afterFirstSlash : List Char → Option (List Char)
  | [] => none
  | c :: t => if c = '/' then some t else afterFirstSlash t

/-- The pure normalization pipeline of `gitRepoSlug` applied to the raw
`remote.origin.url` output: trim space, strip a `.git` suffix, rewrite the
SSH form `git@host:owner/repo` to `host/owner/repo`, strip an
`https://`/`http://` protocol, then return the part after the first slash
(`none` models the "could not extract slug" error). -/
def gitRepoSlugOfURL (rawURL : String) : Option String :=
  let s := goTrimSpace rawURL.data
  let s := goTrimSuffix s (".git".data)
  let s :=
    if ("git@".data).isPrefixOf s then
      goReplaceFirstChar ':' '/' (goTrimLeading s ("git@".data))
    else s
  let s := goTrimLeading s ("https://".data)
  let s := goTrimLeading s ("http://".data)
  (afterFirstSlash s).map List.asString

/-- The lookup half of `findCurrentRepo`: linear scan of `cfg.GitRepos` for
the first entry whose slug equals the resolved slug. -/
def findCurrentRepo (cfg : Config) (slug : String) : Option GitRepo :=
  cfg.gitRepos.find? (fun r => r.slug == slug)

/-! ### Open-command resolution (main.go `cmdPO`, step 4) -/

/-- The open-command resolution of `cmdPO`: start from the global
`cfg.OpenCmd`, fall back to `"code ."` when it is empty, then override with
the matched repository's `OpenCmd` when a match exists and it is non-empty. -/
def effectiveOpenCmd (cfg : Config) (repo : Option GitRepo) : String :=
  let base := if cfg.openCmd = "" then "code ." else cfg.openCmd
  match repo with
  | some r => if r.openCmd ≠ "" then r.openCmd else base
  | none => base

/-- Modelled from the spec's words, for comparison with `effectiveOpenCmd`:
"the matched GitRepo's open_cmd when … its open_cmd is non-empty; otherwise
the global open_cmd when set; otherwise the default `code .`". -/
def openCmdSpec (cfg : Config) (repo : Option GitRepo) : String :=
  match repo with
  | some r =>
    if r.openCmd ≠ "" then r.openCmd
    else if cfg.openCmd ≠ "" then cfg.openCmd else "code ."
  | none => if cfg.openCmd ≠ "" then cfg.openCmd else "code ."

/-- Test configuration for the C4 particulars: global `open_cmd` unset, one
GitRepo `acme/widget` with `open_cmd = "idea ."`. -/
def cfgIdea : Config :=
  ⟨[], [], [⟨"acme/widget", "widget", "idea .", []⟩], ""⟩

/-! ### Shell detection (main.go `detectShell`, `run`, `cmdInit`) -/

/-- Relevant invoking environment: the `SHELL` variable and whether
`runtime.GOOS == "windows"`. -/
structure ShellEnv where
  shellVar : String
  isWindows : Bool
deriving DecidableEq

/-- Source `detectShell`: when `SHELL` is non-empty, match the substrings
`zsh`, `bash`, `fish` against its base name; otherwise (or on no match)
return `powershell` on Windows and `zsh` elsewhere. -/
def detectShell (env : ShellEnv) : String :=
  if env.shellVar ≠ "" then
    let base := filepathBase env.shellVar
    if containsStr base "zsh" then "zsh"
    else if containsStr base "bash" then "bash"
    else if containsStr base "fish" then "fish"
    else if env.isWindows then "powershell" else "zsh"
  else if env.isWindows then "powershell" else "zsh"

/-- The `run` dispatcher's shell argument for `init`: `args[1]` when given,
the literal `"zsh"` otherwise. -/
def initShellArg (extra : Option String) : String := extra.getD "zsh"

/-- The effective shell kind of `cmdInit`: the argument when it is one of
`zsh`/`bash`/`powershell`, otherwise the detected shell. -/
def effectiveShellKind (extra : Option String) (env : ShellEnv) : String :=
  let arg := initShellArg extra
  if arg ≠ "zsh" ∧ arg ≠ "bash" ∧ arg ≠ "powershell" then detectShell env else arg

/-- Concrete non-Windows environment with `SHELL=/bin/bash`. -/
def envBash : ShellEnv := ⟨"/bin/bash", false⟩

/-! ### Shell-integration emission (main.go `cmdInit`) -/

/-- The root alias line of the UNIX output (`alias ::='$COLONSH_BIN'`),
synthesized before the table-driven lines and not driven by any template. -/
def rootAliasLine : String := "alias ::='$COLONSH_BIN'"

/-- One UNIX builtin alias line: placeholder replaced by `$COLONSH_BIN`,
then single-quote-escaped inside `alias :name='...'`. -/
def unixBuiltinLine (ba : BuiltinAlias) : String :=
  "alias :" ++ ba.name ++ "='"
    ++ shellQuoteSingle (goReplaceAll ba.template binPlaceholder "$COLONSH_BIN") ++ "'"

/-- The UNIX builtin-alias loop: skip entries with an empty template or
named `help`, emit an alias line for the rest. -/
def unixBuiltinAliasLines (B : List BuiltinAlias) : List String :=
  emitKept (fun ba => ba.template == "" || ba.name == "help") unixBuiltinLine B

/-- One UNIX custom alias line (`alias :name='quoted cmd'`). -/
def unixCustomLine (a : Alias) : String :=
  "alias :" ++ a.name ++ "='" ++ shellQuoteSingle a.cmd ++ "'"

/-- The custom-alias loop of `cmdInit` (UNIX branch): skip aliases with an
empty name or command. -/
def unixCustomAliasLines (A : List Alias) : List String :=
  emitKept (fun a => a.name == "" || a.cmd == "") unixCustomLine A

/-- The emitted UNIX command namespace: the synthesized root alias first,
then the builtin lines in table order, then the custom lines in config
order. -/
def unixEmittedCommands (B : List BuiltinAlias) (A : List Alias) : List String :=
  rootAliasLine :: (unixBuiltinAliasLines B ++ unixCustomAliasLines A)

/-- The PowerShell value for one builtin: the template with `{{BIN}}`
replaced by `$COLONSH_BIN` and then `$COLONSH_BIN` replaced by the resolved
executable path, with no quote escaping. -/
def psBuiltinValue (exe : String) (ba : BuiltinAlias) : String :=
  goReplaceAll (goReplaceAll ba.template binPlaceholder "$COLONSH_BIN") "$COLONSH_BIN" exe

/-- The PowerShell builtin loop: skip entries with an empty template or
named `help`, `pd` or `cd`; emit `(name, value)` pairs for the rest. -/
def psBuiltinAliasPairs (exe : String) (B : List BuiltinAlias) : List (String × String) :=
  emitKept
    (fun ba => ba.template == "" || ba.name == "help" || ba.name == "pd" || ba.name == "cd")
    (fun ba => (ba.name, psBuiltinValue exe ba)) B

/-- One PowerShell custom alias line (`Set-Alias -Name ':name' -Value 'cmd'`,
no quote escaping of the command). -/
def psCustomLine (a : Alias) : String :=
  "Set-Alias -Name ':" ++ a.name ++ "' -Value '" ++ a.cmd ++ "'"

/-- The custom-alias loop of `cmdInit` (PowerShell branch): same skip rule
as the UNIX branch, PowerShell rendering. -/
def psCustomAliasLines (A : List Alias) : List String :=
  emitKept (fun a => a.name == "" || a.cmd == "") psCustomLine A

/-- A builtin table with two templated entries named `help`, exercising the
universally-quantified form of the namespace-size claim. -/
def helpOnlyTable : List BuiltinAlias :=
  [⟨"help", "h", "x"⟩, ⟨"help", "h", "x"⟩]

/-! ### Help listing (main.go `printHelp`) -/

/-- The padding-width computation of `printHelp`: fold the builtin name
lengths, then the custom alias name lengths plus one (for the leading colon
of the rendered custom name), keeping the running maximum. -/
def helpMaxNameLen (B : List BuiltinAlias) (A : List Alias) : Nat :=
  let m := B.foldl (fun m ba => if ba.name.length > m then ba.name.length else m) 0
  A.foldl (fun m a => if a.name.length + 1 > m then a.name.length + 1 else m) m

/-- The custom-alias name loop of `printHelp`: skip aliases with an empty
name or command, render `:name` for the rest. -/
def helpCustomNames (A : List Alias) : List String :=
  emitKept (fun a => a.name == "" || a.cmd == "") (fun a => ":" ++ a.name) A

/-- All names printed by `printHelp`: the manual root entry `::`, the kept
builtins as `:name`, then the kept custom aliases as `:name`. -/
def helpNames (B : List BuiltinAlias) (A : List Alias) : List String :=
  "::" :: (emitKept (fun ba => ba.template == "" || ba.name == "help")
      (fun ba => ":" ++ ba.name) B
    ++ helpCustomNames A)

/-- The printed name column: every name padded to the computed width via
`%-*s`. -/
def helpRows (B : List BuiltinAlias) (A : List Alias) : List String :=
  (helpNames B A).map (goPad (helpMaxNameLen B A))

/-- Config exercising the C8 particular: a single custom alias whose name is
longer than every builtin name. -/
def cfgLongAlias : Config :=
  ⟨[⟨"supercalifragilistic", "echo hi"⟩], [], [], ""⟩

/-! ### Interactive selections (main.go `cmdPD`, `cmdCD`, `cmdGB`, `cmdPA`,
`cmdGDB`) -/

/-- `cmdPD` after the selection prompt: an empty selection is the error
`"no project selected"`, otherwise the chosen path is printed. -/
def cmdPD_afterSelect (selected : String) : Except String String :=
  if selected = "" then .error "no project selected" else .ok selected

/-- `cmdCD` after the selection prompt: an empty selection prints
`"No directory selected."` and succeeds (`none`), otherwise the chosen
directory is printed. -/
def cmdCD_afterSelect (selected : String) : Except String (Option String) :=
  if selected = "" then .ok none else .ok (some selected)

/-- `cmdGB` after the selection prompt: an empty selection prints
`"No branch selected."` and succeeds, otherwise `git checkout <branch>` is
run. -/
def cmdGB_afterSelect (selected : String) : Except String (Option (List String)) :=
  if selected = "" then .ok none else .ok (some ["git", "checkout", selected])

/-- `cmdPA` after the action prompt: an empty selection prints
`"No action selected."` and succeeds; otherwise the named action is looked
up (error when absent) and its `(runDir, cmd)` pair is prepared, the run
directory joined from the repo root and the action's non-trivial `dir`. -/
def cmdPA_afterSelect (repo : GitRepo) (root selectedName : String) :
    Except String (Option (String × String)) :=
  if selectedName = "" then .ok none
  else
    match repo.actions.find? (fun a => a.name == selectedName) with
    | none => .error "selected action not found"
    | some a =>
      .ok (some (if a.dir ≠ "" ∧ a.dir ≠ "." then root ++ "/" ++ a.dir else root, a.cmd))

/-- The deletion commands issued by `cmdGDB` for the selected branches. -/
def gdbDeleteCmds (selected : List String) : List (List String) :=
  selected.map (fun b => ["git", "branch", "-d", b])

/-- `cmdGDB` after the multi-selection prompt: an empty selection prints
`"No branches selected."` and succeeds; a declined confirmation aborts
successfully; otherwise one `git branch -d` per selected branch. -/
def cmdGDB_afterSelect (selected : List String) (confirm : Bool) :
    Except String (Option (List (List String))) :=
  if selected.isEmpty then .ok none
  else if !confirm then .ok none
  else .ok (some (gdbDeleteCmds selected))

/-- The candidate-branch filter of `cmdGDB`: drop `main` and `master` from
the raw branch list, keeping order. -/
def gdbCandidates (all : List String) : List String :=
  emitKept (fun b => b == "main" || b == "master") (fun b => b) all

/-! ## Theorems -/

/-! ### Generic loop lemmas -/

theorem emitKept_eq_filter_map {α β : Type} (skip : α → Bool) (render : α → β)
    (l : List α) : emitKept skip render l = (l.filter (fun a => !skip a)).map render := by
  induction l with
  | nil => rfl
  | cons a t ih => cases h : skip a <;> simp [emitKept, h, ih]

theorem length_emitKept {α β : Type} (skip : α → Bool) (render : α → β)
    (l : List α) : (emitKept skip render l).length = (l.filter (fun a => !skip a)).length := by
  rw [emitKept_eq_filter_map, List.length_map]

/-! ### Quoting round trip (C1) -/

theorem replaceFuel_quoteChars :
    ∀ (l : List Char) (fuel : Nat), l.length ≤ fuel →
      replaceFuel ['\''] ['\'', '\\', '\'', '\''] fuel l = quoteChars l
  | [], fuel, _ => by cases fuel <;> rfl
  | c :: t, 0, h => by simp at h
  | c :: t, fuel + 1, h => by
    have ht : t.length ≤ fuel := by simpa using h
    by_cases hc : c = '\''
    · subst hc
      simp [replaceFuel, quoteChars, List.isPrefixOf,
        replaceFuel_quoteChars t fuel ht]
    · have hpre : (['\''].isPrefixOf (c :: t)) = false := by
        simp [List.isPrefixOf]
        exact fun hx => (hc hx.symm).elim
      simp [replaceFuel, quoteChars, hpre, hc, replaceFuel_quoteChars t fuel ht]

theorem shellQuoteSingle_data (s : String) :
    (shellQuoteSingle s).data = quoteChars s.data := by
  show (replaceFuel ("'" : String).data ("'\\''" : String).data s.data.length s.data).asString.data
      = quoteChars s.data
  rw [show ("'" : String).data = ['\''] from rfl,
    show ("'\\''" : String).data = ['\'', '\\', '\'', '\''] from rfl,
    replaceFuel_quoteChars s.data s.data.length (Nat.le_refl _)]
  rfl

theorem shUnq_false_quote (cs : List Char) : shUnq false ('\'' :: cs) = shUnq true cs := by
  cases cs <;> simp [shUnq]

theorem shUnq_true_quote (cs : List Char) : shUnq true ('\'' :: cs) = shUnq false cs := by
  simp [shUnq]

theorem shUnq_false_backslash (d : Char) (ds : List Char) :
    shUnq false ('\\' :: d :: ds) = (shUnq false ds).map (fun r => d :: r) := by
  simp [shUnq]

theorem shUnq_true_other (c : Char) (cs : List Char) (h : c ≠ '\'') :
    shUnq true (c :: cs) = (shUnq true cs).map (fun r => c :: r) := by
  simp only [shUnq, if_neg h]

theorem quoteChars_cons_quote (t : List Char) :
    quoteChars ('\'' :: t) = '\'' :: '\\' :: '\'' :: '\'' :: quoteChars t := rfl

theorem quoteChars_cons_other (c : Char) (t : List Char) (h : c ≠ '\'') :
    quoteChars (c :: t) = c :: quoteChars t := by
  simp only [quoteChars, if_neg h]

theorem shUnq_quoteChars (s : List Char) : ∀ rest : List Char,
    shUnq true (quoteChars s ++ '\'' :: rest)
      = (shUnq false rest).map (fun r => s ++ r) := by
  induction s with
  | nil =>
    intro rest
    show shUnq true ('\'' :: rest) = (shUnq false rest).map (fun r => [] ++ r)
    rw [shUnq_true_quote]
    cases shUnq false rest <;> rfl
  | cons c t ih =>
    intro rest
    by_cases hc : c = '\''
    · subst hc
      rw [quoteChars_cons_quote]
      show shUnq true ('\'' :: '\\' :: '\'' :: '\'' :: (quoteChars t ++ '\'' :: rest))
          = (shUnq false rest).map (fun r => '\'' :: t ++ r)
      rw [shUnq_true_quote, shUnq_false_backslash, shUnq_false_quote, ih rest]
      cases shUnq false rest <;> rfl
    · rw [quoteChars_cons_other c t hc]
      show shUnq true (c :: (quoteChars t ++ '\'' :: rest))
          = (shUnq false rest).map (fun r => c :: t ++ r)
      rw [shUnq_true_other c _ hc, ih rest]
      cases shUnq false rest <;> rfl

/-- Claim C1: `shellQuoteSingle` replaces each single quote by
close-quote, escaped quote, reopen-quote; concretely
`shellQuoteSingle "it's fine"` is `it'\''s fine`; and wrapping the result
in single quotes and shell-unquoting it restores the input exactly
(`shellUnquoteWrapped (shellQuoteSingle s) = some s` for every `s`). -/
theorem shellQuoteSingle_roundTrip :
    (∀ s : String, (shellQuoteSingle s).data = quoteChars s.data) ∧
    shellQuoteSingle "it's fine" = "it'\\''s fine" ∧
    (∀ s : String, shellUnquoteWrapped (shellQuoteSingle s) = some s) := by
  refine ⟨shellQuoteSingle_data, by decide, ?_⟩
  intro s
  show (shUnq false ('\'' :: (shellQuoteSingle s).data ++ ['\''])).map List.asString = some s
  rw [shellQuoteSingle_data]
  show (shUnq false ('\'' :: (quoteChars s.data ++ ['\'']))).map List.asString = some s
  rw [shUnq_false_quote, shUnq_quoteChars s.data []]
  show (((some ([] : List Char)).map (fun r => s.data ++ r)).map List.asString) = some s
  rw [Option.map_some', Option.map_some', List.append_nil]
  rfl

/-! ### Slug normalization (C2) -/

/-- Claim C2 counterexample: slug normalization is not idempotent.
Normalizing `git@github.com:acme/widget.git` yields `acme/widget`, but
normalizing that result again yields `widget`, because the pipeline always
returns the part after the first slash. -/
theorem gitRepoSlug_not_idempotent :
    (gitRepoSlugOfURL "git@github.com:acme/widget.git").bind gitRepoSlugOfURL
      ≠ gitRepoSlugOfURL "git@github.com:acme/widget.git" := by decide

/-- Claim C2 (amended): the concrete normalizations hold —
`git@github.com:acme/widget.git` and `https://github.com/acme/widget` both
normalize to `acme/widget` — but normalization is not idempotent: applied to
the already-normalized `acme/widget` it returns `widget` (the part after the
first slash). -/
theorem gitRepoSlug_normalization :
    gitRepoSlugOfURL "git@github.com:acme/widget.git" = some "acme/widget" ∧
    gitRepoSlugOfURL "https://github.com/acme/widget" = some "acme/widget" ∧
    gitRepoSlugOfURL "acme/widget" = some "widget" := by decide

/-! ### Open-command resolution (C4) -/

/-- Claim C4: the effective open command of `cmdPO` is the matched GitRepo's
`open_cmd` when a repository with the resolved slug exists and its
`open_cmd` is non-empty, otherwise the global `open_cmd` when set, otherwise
`"code ."`; in particular, with the global value unset and a matched repo
carrying `"idea ."` the result is `"idea ."`, and with no match and the
global value unset the result is `"code ."`. -/
theorem cmdPO_open_resolution :
    (∀ (cfg : Config) (repo : Option GitRepo),
      effectiveOpenCmd cfg repo = openCmdSpec cfg repo) ∧
    effectiveOpenCmd cfgIdea (findCurrentRepo cfgIdea "acme/widget") = "idea ." ∧
    effectiveOpenCmd cfgIdea (findCurrentRepo cfgIdea "other/thing") = "code ." := by
  refine ⟨?_, by decide, by decide⟩
  intro cfg repo
  cases repo with
  | none => by_cases h : cfg.openCmd = "" <;> simp [effectiveOpenCmd, openCmdSpec, h]
  | some r =>
    by_cases hr : r.openCmd = "" <;> by_cases h : cfg.openCmd = "" <;>
      simp [effectiveOpenCmd, openCmdSpec, hr, h]

/-! ### Cancelled interactive selections (C5) -/

/-- Claim C5 counterexample: in `cmdPD` an empty (user-cancelled) selection
is not a no-op — it is the error `"no project selected"`. -/
theorem cmdPD_empty_selection_is_error :
    cmdPD_afterSelect "" = Except.error "no project selected" := rfl

/-- Claim C5 (amended): a user-cancelled (empty) selection is a successful
no-op in subdirectory selection (`cmdCD`), branch selection (`cmdGB`),
action selection (`cmdPA`) and branch deletion (`cmdGDB`), but
project-directory selection (`cmdPD`) treats it as the error
`"no project selected"`. -/
theorem selection_cancel_behavior :
    cmdCD_afterSelect "" = Except.ok none ∧
    cmdGB_afterSelect "" = Except.ok none ∧
    (∀ (repo : GitRepo) (root : String), cmdPA_afterSelect repo root "" = Except.ok none) ∧
    (∀ confirm : Bool, cmdGDB_afterSelect [] confirm = Except.ok none) ∧
    cmdPD_afterSelect "" = Except.error "no project selected" := by
  refine ⟨rfl, rfl, fun repo root => rfl, fun confirm => rfl, rfl⟩

/-! ### Shell-kind fallback (C6) -/

/-- Claim C6 counterexample: with no shell argument and `SHELL=/bin/bash` on
a non-Windows system, the effective shell kind is the literal default
`"zsh"`, not the detected `"bash"`: the unspecified case never consults the
environment. -/
theorem cmdInit_unspecified_shell_is_zsh :
    effectiveShellKind none envBash ≠ detectShell envBash ∧
    effectiveShellKind none envBash = "zsh" ∧
    detectShell envBash = "bash" := by decide

/-- Claim C6 (amended): an explicitly given shell kind outside
`zsh`/`bash`/`powershell` falls back to the shell detected from the
environment, but an unspecified shell kind defaults to the literal `"zsh"`
without consulting the environment; detection matches the substrings `zsh`,
`bash`, `fish` (in that order) against the base name of `SHELL`, and falls
back to `powershell` on Windows and `zsh` elsewhere when `SHELL` is empty. -/
theorem cmdInit_shell_fallback :
    (∀ (t : String) (env : ShellEnv), ¬(t = "zsh" ∨ t = "bash" ∨ t = "powershell") →
      effectiveShellKind (some t) env = detectShell env) ∧
    (∀ env : ShellEnv, effectiveShellKind none env = "zsh") ∧
    (∀ env : ShellEnv, env.shellVar = "" →
      detectShell env = if env.isWindows then "powershell" else "zsh") ∧
    (∀ env : ShellEnv, env.shellVar ≠ "" →
      containsStr (filepathBase env.shellVar) "zsh" = true → detectShell env = "zsh") ∧
    (∀ env : ShellEnv, env.shellVar ≠ "" →
      containsStr (filepathBase env.shellVar) "zsh" = false →
      containsStr (filepathBase env.shellVar) "bash" = true → detectShell env = "bash") ∧
    (∀ env : ShellEnv, env.shellVar ≠ "" →
      containsStr (filepathBase env.shellVar) "zsh" = false →
      containsStr (filepathBase env.shellVar) "bash" = false →
      containsStr (filepathBase env.shellVar) "fish" = true → detectShell env = "fish") := by
  refine ⟨?_, ?_, ?_, ?_, ?_, ?_⟩
  · intro t env h
    push_neg at h
    obtain ⟨h1, h2, h3⟩ := h
    simp [effectiveShellKind, initShellArg, h1, h2, h3]
  · intro env
    simp [effectiveShellKind, initShellArg]
  · intro env h
    simp [detectShell, h]
  · intro env h hz
    simp [detectShell, h, hz]
  · intro env h hz hb
    simp [detectShell, h, hz, hb]
  · intro env h hz hb hf
    simp [detectShell, h, hz, hb, hf]

/-- Witness for the amended C6 theorem: the unrecognized argument `tcsh`
with `SHELL=/usr/bin/fish` on a non-Windows system yields the detected
`fish`. -/
theorem cmdInit_shell_fallback_witness :
    effectiveShellKind (some "tcsh") ⟨"/usr/bin/fish", false⟩ = "fish" := by
  have h1 := cmdInit_shell_fallback.1 "tcsh" ⟨"/usr/bin/fish", false⟩ (by decide)
  have h2 := cmdInit_shell_fallback.2.2.2.2.2 ⟨"/usr/bin/fish", false⟩
    (by decide) (by decide) (by decide) (by decide)
  rw [h1, h2]

/-! ### Namespace size (C3) -/

theorem filter_split_le (B : List BuiltinAlias) :
    (B.filter (fun ba => !(ba.template == ""))).length
      ≤ (B.filter (fun ba => !(ba.template == "") && !(ba.name == "help"))).length
        + (B.filter (fun ba => ba.name == "help")).length := by
  induction B with
  | nil => simp
  | cons ba t ih =>
    simp only [List.filter_cons]
    cases h1 : (ba.template == "") <;> cases h2 : (ba.name == "help") <;> simp <;> omega

/-- Claim C3 counterexample: for a builtin table holding two templated
entries named `help` (and no custom aliases), the UNIX emission — one root
alias, zero table lines, zero custom lines — has fewer commands than the
table has non-empty templates, because `cmdInit` skips every entry named
`help` even when its template is non-empty. -/
theorem cmdInit_drops_templated_help :
    (unixEmittedCommands helpOnlyTable []).length
      < (helpOnlyTable.filter (fun ba => !(ba.template == ""))).length := by decide

/-- Claim C3 (amended): for every builtin table with at most one entry named
`help` (as in the program's fixed table) and every alias list, the emitted
UNIX command namespace — root alias included — is at least as large as the
number of builtins with a non-empty template; and the root alias, not driven
by any template, is always emitted first. -/
theorem cmdInit_size_lower_bound (B : List BuiltinAlias) (A : List Alias)
    (hhelp : (B.filter (fun ba => ba.name == "help")).length ≤ 1) :
    (B.filter (fun ba => !(ba.template == ""))).length ≤ (unixEmittedCommands B A).length ∧
    (unixEmittedCommands B A).head? = some rootAliasLine := by
  refine ⟨?_, rfl⟩
  have hsplit := filter_split_le B
  have hconv : B.filter (fun ba => !(ba.template == "" || ba.name == "help"))
      = B.filter (fun ba => !(ba.template == "") && !(ba.name == "help")) := by
    apply List.filter_congr
    intro ba _
    exact Bool.not_or _ _
  have hlen : (unixEmittedCommands B A).length
      = 1 + ((B.filter (fun ba => !(ba.template == "" || ba.name == "help"))).length
          + (A.filter (fun a => !(a.name == "" || a.cmd == ""))).length) := by
    simp [unixEmittedCommands, unixBuiltinAliasLines, unixCustomAliasLines,
      length_emitKept, List.length_append]
    omega
  rw [hconv] at hlen
  omega

/-- Witness for the amended C3 theorem at the program's fixed builtin table
and an empty alias list. -/
theorem cmdInit_size_lower_bound_witness :
    (builtinAliases.filter (fun ba => !(ba.template == ""))).length
      ≤ (unixEmittedCommands builtinAliases []).length :=
  (cmdInit_size_lower_bound builtinAliases [] (by decide)).1

/-! ### PowerShell emission (C7) -/

/-- Claim C7 counterexample: the builtin `help` has a non-empty template and
is neither the project-directory nor the subdirectory selection command, yet
the PowerShell output does not emit it: the PowerShell branch skips `help`
in addition to `pd`, `cd` and the template-less entries. -/
theorem cmdInit_powershell_skips_help :
    (builtinAliases.any (fun ba => ba.name == "help" && !(ba.template == ""))) = true ∧
    ((psBuiltinAliasPairs "colonsh" builtinAliases).map Prod.fst).contains "help" = false := by
  exact ⟨by decide, by decide⟩

/-- Claim C7 (amended): the PowerShell rendering skips exactly the
template-less entries together with `help`, `pd` and `cd`, and emits every
other templated builtin as a simple name/value pair whose value is the
template with only the placeholder substitutions applied — no single-quote
safety quoting. -/
theorem cmdInit_powershell_emission (exe : String) (B : List BuiltinAlias) :
    psBuiltinAliasPairs exe B
      = List.map (fun ba => (ba.name, psBuiltinValue exe ba))
          (B.filter (fun ba => !(ba.template == "")
            && !(ba.name == "help" || ba.name == "pd" || ba.name == "cd"))) := by
  rw [psBuiltinAliasPairs, emitKept_eq_filter_map]
  congr 1
  apply List.filter_congr
  intro ba _
  cases h1 : (ba.template == "") <;> cases h2 : (ba.name == "help") <;>
    cases h3 : (ba.name == "pd") <;> cases h4 : (ba.name == "cd") <;>
      simp [h1, h2, h3, h4]

/-! ### Help-listing width (C8) -/

theorem asString_length (l : List Char) : l.asString.length = l.length := rfl

theorem goPad_length (w : Nat) (s : String) : (goPad w s).length = max w s.length := by
  rw [goPad, String.length_append, asString_length, List.length_replicate]
  omega

theorem foldl_max_eq {α : Type} (f : α → Nat) : ∀ (l : List α) (m0 : Nat),
    l.foldl (fun m a => if f a > m then f a else m) m0 = max m0 (listMax (l.map f)) := by
  intro l
  induction l with
  | nil => intro m0; simp [listMax]
  | cons a t ih =>
    intro m0
    simp only [List.foldl_cons, List.map_cons, listMax, List.foldr_cons]
    rw [ih]
    have hstep : (if f a > m0 then f a else m0) = max m0 (f a) := by
      split <;> omega
    rw [hstep, Nat.max_assoc]
    rfl

theorem le_listMax_of_mem {l : List Nat} {a : Nat} (h : a ∈ l) : a ≤ listMax l := by
  induction l with
  | nil => cases h
  | cons b t ih =>
    rcases List.mem_cons.1 h with rfl | h2
    · exact Nat.le_max_left _ _
    · exact Nat.le_trans (ih h2) (Nat.le_max_right _ _)

theorem listMax_le {l : List Nat} {b : Nat} (h : ∀ a ∈ l, a ≤ b) : listMax l ≤ b := by
  induction l with
  | nil => exact Nat.zero_le _
  | cons c t ih =>
    exact Nat.max_le.2 ⟨h c (List.mem_cons_self c t), ih (fun a ha => h a (List.mem_cons_of_mem c ha))⟩

theorem helpMaxNameLen_eq (B : List BuiltinAlias) (A : List Alias) :
    helpMaxNameLen B A
      = max (listMax (B.map (fun ba => ba.name.length)))
          (listMax (A.map (fun a => a.name.length + 1))) := by
  unfold helpMaxNameLen
  rw [foldl_max_eq (fun ba => ba.name.length) B 0,
    foldl_max_eq (fun a => a.name.length + 1) A _]
  rw [Nat.zero_max]

/-- Claim C8: the help-listing column width equals the maximum of the
longest builtin name and the longest custom alias name plus one; in
particular, for an alias list dominated by one alias name strictly longer
than every builtin name the width is that alias name's length plus one; and
every printed name is padded to at least that width. -/
theorem printHelp_column_width :
    (∀ A : List Alias, helpMaxNameLen builtinAliases A
      = max (listMax (builtinAliases.map (fun ba => ba.name.length)))
          (listMax (A.map (fun a => a.name.length + 1)))) ∧
    (∀ (A : List Alias) (a : Alias), a ∈ A →
      (∀ ba ∈ builtinAliases, ba.name.length < a.name.length) →
      (∀ a' ∈ A, a'.name.length ≤ a.name.length) →
      helpMaxNameLen builtinAliases A = a.name.length + 1) ∧
    (∀ (A : List Alias) (r : String), r ∈ helpRows builtinAliases A →
      helpMaxNameLen builtinAliases A ≤ r.length) := by
  refine ⟨fun A => helpMaxNameLen_eq builtinAliases A, ?_, ?_⟩
  · intro A a ha hB hA
    rw [helpMaxNameLen_eq]
    have h1 : listMax (builtinAliases.map (fun ba => ba.name.length)) ≤ a.name.length := by
      apply listMax_le
      intro x hx
      obtain ⟨ba, hba, rfl⟩ := List.mem_map.1 hx
      exact Nat.le_of_lt (hB ba hba)
    have h2 : listMax (A.map (fun a' => a'.name.length + 1)) ≤ a.name.length + 1 := by
      apply listMax_le
      intro x hx
      obtain ⟨a', h', rfl⟩ := List.mem_map.1 hx
      exact Nat.add_le_add_right (hA a' h') 1
    have h3 : a.name.length + 1 ≤ listMax (A.map (fun a' => a'.name.length + 1)) :=
      le_listMax_of_mem (List.mem_map_of_mem _ ha)
    have h4 : listMax (A.map (fun a' => a'.name.length + 1)) = a.name.length + 1 :=
      Nat.le_antisymm h2 h3
    rw [h4]
    exact Nat.max_eq_right (by omega)
  · intro A r hr
    obtain ⟨n, hn, rfl⟩ := List.mem_map.1 hr
    rw [goPad_length]
    exact Nat.le_max_left _ _

/-- Witness for C8: a config whose single alias name (20 characters) is
longer than every builtin name gives width 21, and the first printed row is
padded to at least that width. -/
theorem printHelp_column_width_witness :
    helpMaxNameLen builtinAliases cfgLongAlias.aliases
      = ("supercalifragilistic" : String).length + 1 ∧
    helpMaxNameLen builtinAliases cfgLongAlias.aliases
      ≤ (goPad (helpMaxNameLen builtinAliases cfgLongAlias.aliases) "::").length := by
  constructor
  · exact printHelp_column_width.2.1 cfgLongAlias.aliases ⟨"supercalifragilistic", "echo hi"⟩
      (by decide) (by decide) (by decide)
  · exact printHelp_column_width.2.2 cfgLongAlias.aliases
      (goPad (helpMaxNameLen builtinAliases cfgLongAlias.aliases) "::") (by decide)

/-! ### Protected branches (C9) -/

theorem gdbCandidates_eq_filter (all : List String) :
    gdbCandidates all = all.filter (fun b => !(b == "main" || b == "master")) := by
  rw [gdbCandidates, emitKept_eq_filter_map, List.map_id']

theorem mem_gdbCandidates (all : List String) (b : String) :
    b ∈ gdbCandidates all ↔ b ∈ all ∧ b ≠ "main" ∧ b ≠ "master" := by
  rw [gdbCandidates_eq_filter]
  simp [List.mem_filter]

/-- Claim C9: `cmdGDB` never offers `main` or `master` for deletion — its
candidate list is exactly the raw branch list with those two names removed,
order preserved — and, the selection being constrained to the candidates,
every issued `git branch -d` targets a branch of the input list different
from `main` and `master`. -/
theorem cmdGDB_protects_main_master :
    (∀ all : List String,
      gdbCandidates all = all.filter (fun b => !(b == "main" || b == "master"))) ∧
    (∀ (all : List String) (b : String),
      b ∈ gdbCandidates all ↔ b ∈ all ∧ b ≠ "main" ∧ b ≠ "master") ∧
    (∀ (all sel : List String), (∀ b ∈ sel, b ∈ gdbCandidates all) →
      ∀ c ∈ gdbDeleteCmds sel,
        ∃ b, c = ["git", "branch", "-d", b] ∧ b ∈ all ∧ b ≠ "main" ∧ b ≠ "master") := by
  refine ⟨gdbCandidates_eq_filter, mem_gdbCandidates, ?_⟩
  intro all sel hsub c hc
  rw [gdbDeleteCmds] at hc
  obtain ⟨b, hb, rfl⟩ := List.mem_map.1 hc
  have h := (mem_gdbCandidates all b).1 (hsub b hb)
  exact ⟨b, rfl, h⟩

/-- Witness for C9: from branches `main`, `master`, `feature` only `feature`
is offered, and the delete command for the selection `feature` targets a
non-protected branch of the input. -/
theorem cmdGDB_protects_main_master_witness :
    gdbCandidates ["main", "master", "feature"] = ["feature"] ∧
    (∃ b, ["git", "branch", "-d", "feature"] = ["git", "branch", "-d", b] ∧
      b ∈ ["main", "master", "feature"] ∧ b ≠ "main" ∧ b ≠ "master") := by
  constructor
  · rw [cmdGDB_protects_main_master.1]
    decide
  · exact cmdGDB_protects_main_master.2.2 ["main", "master", "feature"] ["feature"]
      (by decide) ["git", "branch", "-d", "feature"] (by decide)

/-! ### Custom-alias filtering (C10) -/

/-- Claim C10: a custom alias with an empty name or empty command is
silently omitted from the help listing and from both shell-integration
outputs, and all other aliases are emitted in configuration order: each
emission loop equals an order-preserving filter followed by the respective
rendering. -/
theorem customAlias_emission (cfg : Config) :
    unixCustomAliasLines cfg.aliases
      = (cfg.aliases.filter (fun a => !(a.name == "" || a.cmd == ""))).map unixCustomLine ∧
    psCustomAliasLines cfg.aliases
      = (cfg.aliases.filter (fun a => !(a.name == "" || a.cmd == ""))).map psCustomLine ∧
    helpCustomNames cfg.aliases
      = (cfg.aliases.filter (fun a => !(a.name == "" || a.cmd == ""))).map (fun a => ":" ++ a.name) :=
  ⟨emitKept_eq_filter_map _ _ _, emitKept_eq_filter_map _ _ _, emitKept_eq_filter_map _ _ _⟩

end Colonsh
